import Mathlib

set_option maxRecDepth 8192

/-
  Verification development for the Medicare-Call telephony server.

  Shallow embedding of the parts of the TypeScript source that the
  checked properties are about:
  - the mu-law codec (vad.service.ts ulawToPcm16 lookup table and
    audio.utils.ts AudioUtils.linearToUlaw / convertPcm16ToUlaw),
  - the modular pipeline handler turn logic
    (modularPipelineHandler.ts: handleMediaMessage barge-in detection,
    handleInterrupt, processLLMResponse callbacks),
  - the ElevenLabs streaming TTS service (elevenlabs.service.ts),
  - the blocking TTSStreamer (twilio-stream variant),
  - the streaming LLM service (llm/openai.service.ts streamResponse),
  - the session registry close path (sessionManager.ts closeAllConnections).

  Machine integers are modelled as Nat / Int with the JS semantics made
  explicit where it matters; fallible or message-emitting code returns
  pairs of the new state and the list of emitted messages.
-/

namespace MedicareCall

/- ===================================================================
   Mu-law codec.
   pcm_lookup is transcribed verbatim from vad.service.ts (ulawToPcm16).
   Note the literal has 258 entries; only indices 0..255 are ever read.
   =================================================================== -/

def pcm_lookup : List Int := [
    -32124, -31100, -30076, -29052, -28028, -27004, -25980, -24956, -23932, -22908, -21884, -20860,
    -19836, -18812, -17788, -16764, -15996, -15484, -14972, -14460, -13948, -13436, -12924, -12412,
    -11900, -11388, -10876, -10364, -9852, -9340, -8828, -8316, -7932, -7676, -7420, -7164,
    -6908, -6652, -6396, -6140, -5884, -5628, -5372, -5116, -4860, -4604, -4348, -4092,
    -3900, -3772, -3644, -3516, -3388, -3260, -3132, -3004, -2876, -2748, -2620, -2492,
    -2364, -2236, -2108, -2012, -1948, -1884, -1820, -1756, -1692, -1628, -1564, -1500,
    -1436, -1372, -1308, -1244, -1180, -1116, -1052, -988, -924, -876, -844, -812,
    -780, -748, -716, -684, -652, -620, -588, -556, -524, -492, -460, -428,
    -396, -372, -356, -340, -324, -308, -292, -276, -260, -244, -228, -212,
    -196, -180, -164, -148, -132, -120, -112, -104, -96, 88, 80, 72,
    64, 56, 48, 40, 32, 24, 16, 8, 0, 32124, 31100, 30076,
    29052, 28028, 27004, 25980, 24956, 23932, 22908, 21884, 20860, 19836, 18812, 17788,
    16764, 15996, 15484, 14972, 14460, 13948, 13436, 12924, 12412, 11900, 11388, 10876,
    10364, 9852, 9340, 8828, 8316, 7932, 7676, 7420, 7164, 6908, 6652, 6396,
    6140, 5884, 5628, 5372, 5116, 4860, 4604, 4348, 4092, 3900, 3772, 3644,
    3516, 3388, 3260, 3132, 3004, 2876, 2748, 2620, 2492, 2364, 2236, 2108,
    2012, 1948, 1884, 1820, 1756, 1692, 1628, 1564, 1500, 1436, 1372, 1308,
    1244, 1180, 1116, 1052, 988, 924, 876, 844, 812, 780, 748, 716,
    684, 652, 620, 588, 556, 524, 492, 460, 428, 396, 372, 356,
    340, 324, 308, 292, 276, 260, 244, 228, 212, 196, 180, 164,
    148, 132, 120, 112, 104, -96, -88, -80, -72, -64, -56, -48,
    -40, -32, -24, -16, -8, 0]

/-- Decoding one mu-law byte through the lookup table (the body of the
`ulawToPcm16` loop reads `pcm_lookup[ulawAudio[i]]`). -/
def ulawDecode (b : Nat) : Int := pcm_lookup.getD b 0

/-- AudioUtils.findExponent: the loop `for (exponent = 0; exponent < 8;
exponent++) { if (sample <= testValue) break; testValue <<= 1; }` with
`testValue` starting at 256; when the loop exhausts, `exponent = 8`.
The `remaining` argument counts the iterations still allowed. -/
def findExponentAux (sample testValue : Int) (exponent remaining : Nat) : Nat :=
  match remaining with
  | 0 => exponent
  | r + 1 => if sample ≤ testValue then exponent
             else findExponentAux sample (testValue * 2) (exponent + 1) r

def findExponent (sample : Int) : Nat :=
  findExponentAux sample 256 0 8

/-- AudioUtils.linearToUlaw. The final JS expression is
`~(sign | (exponent << 4) | mantissa) & 0xff`, which for a value in
0..255 is the same as XOR with 0xff. -/
def linearToUlaw (sample : Int) : Nat :=
  let sign : Nat := if sample < 0 then 0x80 else 0x00
  let a1 : Int := if sample < 0 then -sample else sample
  let a2 : Int := if a1 > 32635 then 32635 else a1
  let biased : Int := a2 + 0x84
  let exponent := findExponent biased
  let mantissa := (biased.toNat >>> (exponent + 3)) &&& 0x0f
  (sign ||| (exponent <<< 4) ||| mantissa) ^^^ 0xff

/-- The round trip of one mu-law byte: decode it through the lookup
table (vad.service.ts), then re-encode the linear sample with
AudioUtils.linearToUlaw (the body of convertPcm16ToUlaw). -/
def ulawRoundTrip (b : Nat) : Nat := linearToUlaw (ulawDecode b)

/- ===================================================================
   LLM streaming service (services/llm/openai.service.ts,
   LLMService.streamResponse).  The token stream is modelled as the
   list of chunk contents; the AbortController is modelled by the index
   at whose loop head `signal.aborted` first reads true (`flagAt`) and,
   independently, by the stream itself throwing when the next chunk is
   awaited (`throwAt`, carrying whether the thrown error is an
   AbortError).
   =================================================================== -/

inductive LLMEvent where
  | firstToken : LLMEvent
  | token : String → LLMEvent
  | complete : String → LLMEvent
  | error : Bool → LLMEvent
deriving DecidableEq, Repr

/-- Whether `signal.aborted` reads true at loop head number `i`.  Once
aborted, the signal stays aborted, hence the `≤`. -/
def flagHit : Option Nat → Nat → Bool
  | none, _ => false
  | some k, i => k ≤ i

/-- Whether awaiting chunk number `i` throws. -/
def throwHit : Option (Nat × Bool) → Nat → Bool
  | none, _ => false
  | some (j, _), i => j = i

/-- Whether the thrown error is an AbortError (only read when a throw
happens). -/
def throwKind : Option (Nat × Bool) → Bool
  | none => false
  | some (_, isAbort) => isAbort

/-- Models JS String.prototype.trim on the model strings (ASCII
whitespace at both ends). -/
def jsWhitespace (c : Char) : Bool :=
  c = ' ' || c = '\t' || c = '\n' || c = '\r'

def jsTrim (s : String) : String :=
  String.mk (((s.data.dropWhile jsWhitespace).reverse.dropWhile jsWhitespace).reverse)

/-- The `for await` loop body of streamResponse.  At index `i`: pulling
the next chunk may throw (caught: onError fires, with an early return
exactly when the error is an AbortError); then `signal.aborted` is
checked and breaks to onComplete; empty contents are skipped; otherwise
onFirstToken fires once, onToken fires, and the content is accumulated. -/
def streamGo (flagAt : Option Nat) (throwAt : Option (Nat × Bool)) :
    List String → Nat → Bool → String → List LLMEvent
  | chunks, i, isFirst, full =>
    if throwHit throwAt i then [LLMEvent.error (throwKind throwAt)]
    else if flagHit flagAt i then [LLMEvent.complete (jsTrim full)]
    else
      match chunks with
      | [] => [LLMEvent.complete (jsTrim full)]
      | c :: rest =>
        if c = "" then streamGo flagAt throwAt rest (i + 1) isFirst full
        else (if isFirst then [LLMEvent.firstToken] else []) ++
             LLMEvent.token c :: streamGo flagAt throwAt rest (i + 1) false (full ++ c)

/-- LLMService.streamResponse, observed as the list of callback events. -/
def streamResponse (chunks : List String) (flagAt : Option Nat)
    (throwAt : Option (Nat × Bool)) : List LLMEvent :=
  streamGo flagAt throwAt chunks 0 true ""

/-- The events a chunk list produces before its terminal event
(firstToken and the token events of the non-empty contents). -/
def tokenEventsGo : List String → Bool → List LLMEvent
  | [], _ => []
  | c :: rest, isFirst =>
    if c = "" then tokenEventsGo rest isFirst
    else (if isFirst then [LLMEvent.firstToken] else []) ++
         LLMEvent.token c :: tokenEventsGo rest false

def tokenEvents (chunks : List String) : List LLMEvent :=
  tokenEventsGo chunks true

/- ===================================================================
   ElevenLabs streaming TTS service (elevenlabs.service.ts).
   One session of the `sessions` map.  Messages to the telephony
   (Twilio) socket and to the upstream ElevenLabs socket are collected
   explicitly; `wsOpen` is `ws.readyState === OPEN` for the upstream
   connection and `twilioOpen` the same for the telephony connection.
   Timers are modelled by the `timerArmed` flag plus an explicit
   timer-fire operation.
   =================================================================== -/

inductive TwilioMsg where
  | media : List Nat → TwilioMsg
  | mark : String → TwilioMsg
  | clear : TwilioMsg
deriving DecidableEq, Repr

inductive ElevenMsg where
  | bos : ElevenMsg
  | tokenMsg : String → ElevenMsg
  | flushMsg : ElevenMsg
  | eosMsg : ElevenMsg
  | closeConn : ElevenMsg
deriving DecidableEq, Repr

structure ELSession where
  wsOpen : Bool
  isActive : Bool
  isMuted : Bool
  twilioOpen : Bool
  buffer : List Nat
  callbacksRegistered : Bool
  isFlushing : Bool
  timerArmed : Bool
deriving DecidableEq, Repr

/-- Session state right after startSession succeeds. -/
def elInit (twilioOpen : Bool) : ELSession :=
  { wsOpen := true, isActive := true, isMuted := false, twilioOpen := twilioOpen,
    buffer := [], callbacksRegistered := false, isFlushing := false, timerArmed := false }

/-- What ElevenLabs sends us in one ws message, after JSON parsing:
parse failure, an error field, a message without audio, or audio bytes. -/
inductive ELData where
  | malformed : ELData
  | errMsg : ELData
  | noAudio : ELData
  | audio : List Nat → ELData
deriving DecidableEq, Repr

/-- The `while (session.buffer.length >= 160)` loop of handleAudioChunk:
cut 160-byte chunks off the front of the buffer and send each to the
telephony socket (sendToTwilio sends only while that socket is open).
`isMuted` is constant during the synchronous loop, and the loop runs
only when it is false, so the inner muted check never fires.  Structural
recursion on a fuel that starts at the buffer length. -/
def drainAux : Nat → Bool → List Nat → List TwilioMsg × List Nat
  | 0, _, buf => ([], buf)
  | fuel + 1, telOpen, buf =>
    if 160 ≤ buf.length then
      let chunk := buf.take 160
      let r := drainAux fuel telOpen (buf.drop 160)
      ((if telOpen then [TwilioMsg.media chunk] else []) ++ r.1, r.2)
    else ([], buf)

def drain (telOpen : Bool) (buf : List Nat) : List TwilioMsg × List Nat :=
  drainAux buf.length telOpen buf

/-- ElevenLabsService.handleAudioChunk. -/
def handleAudioChunk (s : ELSession) (d : ELData) : ELSession × List TwilioMsg :=
  if s.isMuted then (s, [])
  else
    match d with
    | ELData.malformed => (s, [])
    | ELData.errMsg => (s, [])
    | ELData.noAudio => (s, [])
    | ELData.audio bytes =>
      let s1 := { s with timerArmed := if s.isFlushing then true else s.timerArmed }
      let r := drain s1.twilioOpen (s1.buffer ++ bytes)
      ({ s1 with buffer := r.2 }, r.1)

/-- ElevenLabsService.flushRemainingBuffer: pad the tail to a 160-byte
frame with mu-law silence 0xff and send it.  `Buffer.alloc(160, 0xff)`
followed by `session.buffer.copy(padded)` keeps the first
`min (length, 160)` buffer bytes and leaves the rest 0xff. -/
def flushRemainingBuffer (s : ELSession) : ELSession × List TwilioMsg :=
  if s.buffer.length = 0 || s.isMuted then (s, [])
  else
    let padded := s.buffer.take 160 ++ List.replicate (160 - min s.buffer.length 160) 0xff
    ({ s with buffer := [] },
     if s.twilioOpen then [TwilioMsg.media padded] else [])

/-- ElevenLabsService.prepareForNewResponse. -/
def prepareForNewResponse (s : ELSession) (withCallbacks : Bool) : ELSession :=
  { s with isMuted := false, isFlushing := false, buffer := [],
           callbacksRegistered := withCallbacks, timerArmed := false }

/-- ElevenLabsService.interruptStream: block audio, drop the buffer and
the callbacks, cancel the flush timer, and, while the upstream ws is
open, send it a flush message.  The upstream connection itself is not
touched. -/
def interruptStream (s : ELSession) : ELSession × List ElevenMsg :=
  ({ s with isMuted := true, isFlushing := false, buffer := [],
            callbacksRegistered := false, timerArmed := false },
   if s.wsOpen then [ElevenMsg.flushMsg] else [])

/-- ElevenLabsService.clearTwilioStream. -/
def clearTwilioStream (s : ELSession) : ELSession × List TwilioMsg :=
  ({ s with buffer := [] },
   if s.twilioOpen then [TwilioMsg.clear] else [])

/-- ElevenLabsService.flush (public flush request). -/
def flushOp (s : ELSession) : ELSession × List ElevenMsg :=
  if !s.isActive then (s, [])
  else if s.wsOpen then
    ({ s with isFlushing := true, timerArmed := true }, [ElevenMsg.flushMsg])
  else (s, [])

/-- ElevenLabsService.sendToken. -/
def sendTokenOp (s : ELSession) (t : String) : ELSession × List ElevenMsg :=
  if !s.isActive then (s, [])
  else if s.wsOpen then (s, [ElevenMsg.tokenMsg t])
  else (s, [])

/-- The flushCompletionTimer callback: flush the remaining buffer and,
when callbacks are registered, fire onStreamComplete (the Bool result). -/
def timerFire (s : ELSession) : ELSession × List TwilioMsg × Bool :=
  if s.timerArmed then
    let s1 := { s with isFlushing := false, timerArmed := false }
    let r := flushRemainingBuffer s1
    (r.1, r.2, r.1.callbacksRegistered)
  else (s, [], false)

/-- ElevenLabsService.stopSession. -/
def stopSession (s : ELSession) : ELSession × List ElevenMsg :=
  ({ s with isActive := false },
   if s.wsOpen then [ElevenMsg.eosMsg, ElevenMsg.closeConn] else [])

/-- The operations that can hit one ElevenLabs session after it was
created: the public service operations, the ws message handler, the
flush timer, and the two sockets closing. -/
inductive ELOp where
  | prepare : Bool → ELOp
  | interrupt : ELOp
  | clearStream : ELOp
  | timer : ELOp
  | stop : ELOp
  | flushReq : ELOp
  | tokenReq : String → ELOp
  | chunk : ELData → ELOp
  | wsClosed : ELOp
  | twilioClosed : ELOp
deriving DecidableEq, Repr

/-- One operation, with the telephony messages it emits. -/
def stepELOut (s : ELSession) : ELOp → ELSession × List TwilioMsg
  | ELOp.prepare cb => (prepareForNewResponse s cb, [])
  | ELOp.interrupt => ((interruptStream s).1, [])
  | ELOp.clearStream => clearTwilioStream s
  | ELOp.timer => let r := timerFire s; (r.1, r.2.1)
  | ELOp.stop => ((stopSession s).1, [])
  | ELOp.flushReq => ((flushOp s).1, [])
  | ELOp.tokenReq t => ((sendTokenOp s t).1, [])
  | ELOp.chunk d => handleAudioChunk s d
  | ELOp.wsClosed => ({ s with wsOpen := false, isActive := false }, [])
  | ELOp.twilioClosed => ({ s with twilioOpen := false }, [])

def stepEL (s : ELSession) (op : ELOp) : ELSession := (stepELOut s op).1

def runEL (s : ELSession) (ops : List ELOp) : ELSession :=
  ops.foldl stepEL s

/-- Run a list of operations, collecting every telephony message. -/
def runELOut (s : ELSession) : List ELOp → ELSession × List TwilioMsg
  | [] => (s, [])
  | op :: rest =>
    let r := stepELOut s op
    let r2 := runELOut r.1 rest
    (r2.1, r.2 ++ r2.2)

/-- Inductive invariant of one ElevenLabs session: the accumulation
buffer never keeps a complete frame across a handler return, and a
muted session has an empty buffer. -/
def InvEL (s : ELSession) : Prop :=
  s.buffer.length < 160 ∧ (s.isMuted = true → s.buffer = [])

def isMediaMsg : TwilioMsg → Bool
  | TwilioMsg.media _ => true
  | _ => false

def isMarkMsg : TwilioMsg → Bool
  | TwilioMsg.mark _ => true
  | _ => false

/- ===================================================================
   Modular pipeline handler (handlers/modularPipelineHandler.ts).
   The per-session fields the turn logic reads and writes.  History
   entries mirror `conversationHistory: { is_elderly, conversation }`.
   JS truthiness of the optional number / string fields is made
   explicit: `Date.now()` values are never 0, so those fields are
   Options, and `pendingAIResponse` is truthy iff defined and not "".
   =================================================================== -/

structure HistEntry where
  is_elderly : Bool
  conversation : String
deriving DecidableEq, Repr

structure PipeSession where
  conversationHistory : List HistEntry
  wasInterrupted : Bool
  isTTSPlaying : Bool
  lastAudioSentToTwilio : Option Nat
  pendingAIResponse : Option String
  lastAIHistorySavedAt : Option Nat
  hasLLMAbortController : Bool
  ttsCallbacksRegistered : Bool
deriving DecidableEq, Repr

/-- JS truthiness of `session.pendingAIResponse`. -/
def strTruthy : Option String → Bool
  | none => false
  | some p => !(p = "")

/-- handleMediaMessage, step 3 (barge-in detection): the condition under
which handleInterrupt is called for one inbound media frame. -/
def recentlyPlayingTTS (lastAudioSentToTwilio : Option Nat) (now : Nat) : Bool :=
  match lastAudioSentToTwilio with
  | none => false
  | some t => now - t < 2000

def shouldInterrupt (isSpeaking isTTSPlaying : Bool)
    (lastAudioSentToTwilio : Option Nat) (speechStartTimestamp : Nat)
    (transcriptBuffer : List String) (now : Nat) : Bool :=
  let recent := recentlyPlayingTTS lastAudioSentToTwilio now
  let isTTSActive := isTTSPlaying || recent
  if isSpeaking && isTTSActive && decide (0 < speechStartTimestamp) then
    let speakingDuration := now - speechStartTimestamp
    let hasTranscript := !transcriptBuffer.isEmpty
    (decide (500 < speakingDuration) && hasTranscript) || decide (1500 < speakingDuration)
  else false

/-- handleInterrupt: set the interrupted flag, emit clear (modelled on
the ElevenLabs side), interrupt the TTS stream (which drops the TTS
callbacks), abort and drop the LLM controller, roll back a recent
assistant history entry, and reset the playback state. -/
def handleInterrupt (s : PipeSession) (now : Nat) : PipeSession :=
  let s1 := { s with wasInterrupted := true,
                     ttsCallbacksRegistered := false,
                     hasLLMAbortController := false }
  let s2 :=
    match s1.lastAIHistorySavedAt with
    | some savedAt =>
      if now - savedAt < 2000 then
        if 0 < s1.conversationHistory.length then
          match s1.conversationHistory.getLast? with
          | some lastEntry =>
            if lastEntry.is_elderly then s1
            else { s1 with conversationHistory := s1.conversationHistory.dropLast }
          | none => s1
        else s1
      else s1
    | none => s1
  { s2 with isTTSPlaying := false, lastAudioSentToTwilio := none,
            pendingAIResponse := none, lastAIHistorySavedAt := none }

/-- The callback events that can reach one turn of processLLMResponse
after its state initialization: LLM tokens (forwarded to TTS, history
untouched), LLM completion (records the full response as pending), the
TTS onStreamComplete firing (commit point), and handleInterrupt. -/
inductive TurnEvent where
  | llmToken : String → TurnEvent
  | llmComplete : String → TurnEvent
  | streamComplete : Nat → TurnEvent
  | interrupt : Nat → TurnEvent
deriving DecidableEq, Repr

/-- One turn event; the second component lists the assistant texts this
event appended to the conversation history. -/
def stepTurn (s : PipeSession) : TurnEvent → PipeSession × List String
  | TurnEvent.llmToken _ => (s, [])
  | TurnEvent.llmComplete full =>
    ({ s with pendingAIResponse := some full, hasLLMAbortController := false }, [])
  | TurnEvent.streamComplete now =>
    if s.ttsCallbacksRegistered then
      match s.pendingAIResponse with
      | some p =>
        if !s.wasInterrupted && !(p = "") then
          ({ s with conversationHistory :=
                      s.conversationHistory ++ [{ is_elderly := false, conversation := p }],
                    lastAIHistorySavedAt := some now,
                    isTTSPlaying := false, pendingAIResponse := none }, [p])
        else
          ({ s with isTTSPlaying := false, pendingAIResponse := none }, [])
      | none => ({ s with isTTSPlaying := false, pendingAIResponse := none }, [])
    else (s, [])
  | TurnEvent.interrupt now => (handleInterrupt s now, [])

def runTurn (s : PipeSession) : List TurnEvent → PipeSession × List String
  | [] => (s, [])
  | e :: rest =>
    let r := stepTurn s e
    let r2 := runTurn r.1 rest
    (r2.1, r.2 ++ r2.2)

/-- The state initialization at the top of processLLMResponse together
with prepareForNewResponse registering the TTS callbacks. -/
def turnStart (s : PipeSession) : PipeSession :=
  { s with hasLLMAbortController := true, wasInterrupted := false,
           isTTSPlaying := true, pendingAIResponse := some "",
           ttsCallbacksRegistered := true }

/-- A fresh session as createSession builds it (pipeline fields unset). -/
def emptyPipeSession : PipeSession :=
  { conversationHistory := [], wasInterrupted := false, isTTSPlaying := false,
    lastAudioSentToTwilio := none, pendingAIResponse := none,
    lastAIHistorySavedAt := none, hasLLMAbortController := false,
    ttsCallbacksRegistered := false }

/-- A session state just after a commit: the history ends in an
assistant entry saved at time 500. -/
def committedPipeSession : PipeSession :=
  { conversationHistory := [{ is_elderly := true, conversation := "u" },
                            { is_elderly := false, conversation := "a" }],
    wasInterrupted := false, isTTSPlaying := false,
    lastAudioSentToTwilio := some 400, pendingAIResponse := none,
    lastAIHistorySavedAt := some 500, hasLLMAbortController := false,
    ttsCallbacksRegistered := true }

def isTokenEvent : TurnEvent → Bool
  | TurnEvent.llmToken _ => true
  | _ => false

/-- Events that may trail a committed turn without starting a new one:
further tokens and further stream completions. -/
def isBenignTailEvent : TurnEvent → Bool
  | TurnEvent.llmToken _ => true
  | TurnEvent.streamComplete _ => true
  | _ => false

/- ===================================================================
   Blocking TTSStreamer (twilio-stream variant,
   TTSStreamer.streamAudioToTwilio) and AudioUtils.splitIntoChunks.
   `wsOpenAt i` is the telephony socket state observed at loop
   iteration i (it can change during the awaited inter-chunk sleep,
   not within the synchronous body).
   =================================================================== -/

def splitIntoChunksAux : Nat → List Nat → List (List Nat)
  | 0, _ => []
  | fuel + 1, buf =>
    if buf.length = 0 then []
    else if buf.length < 160 then
      [buf ++ List.replicate (160 - buf.length) 0xff]
    else buf.take 160 :: splitIntoChunksAux fuel (buf.drop 160)

def splitIntoChunks (audio : List Nat) : List (List Nat) :=
  splitIntoChunksAux audio.length audio

/-- The send loop of streamAudioToTwilio: at iteration i, if the socket
is still open, send the media frame, and after every 10th sent frame
also send a mark event named after the running frame count. -/
def streamerGo (wsOpenAt : Nat → Bool) : List (List Nat) → Nat → Nat → List TwilioMsg
  | [], _, _ => []
  | c :: rest, i, sent =>
    if wsOpenAt i then
      TwilioMsg.media c ::
        (if (sent + 1) % 10 = 0
         then TwilioMsg.mark ("tts_chunk_" ++ toString (sent + 1)) ::
              streamerGo wsOpenAt rest (i + 1) (sent + 1)
         else streamerGo wsOpenAt rest (i + 1) (sent + 1))
    else []

def streamAudioToTwilio (wsOpenAt : Nat → Bool) (ulawAudio : List Nat) : List TwilioMsg :=
  streamerGo wsOpenAt (splitIntoChunks ulawAudio) 0 0

/-- The number of media frames in an outbound message list. -/
def mediaCount (ms : List TwilioMsg) : Nat := ms.countP isMediaMsg

/- ===================================================================
   Session registry close path (sessionManager.ts,
   closeAllConnections).  The synchronous guard-and-start part of a
   call is one atomic step (JS runs it without yielding); the
   `.finally` continuation (close sockets, delete the session, clear
   the closing set) is a separate step that runs later.  `effects`
   counts how many times the end-of-call side effects (webhook and S3
   uploads) were started, `finalized` how many times the finalizer ran.
   =================================================================== -/

structure RegState where
  present : Bool
  closedFlag : Bool
  closing : Bool
  effects : Nat
  finalizePending : Nat
  finalized : Nat
deriving DecidableEq, Repr

inductive RegOp where
  | closeCall : RegOp
  | finalize : RegOp
deriving DecidableEq, Repr

def regInit : RegState :=
  { present := true, closedFlag := false, closing := false,
    effects := 0, finalizePending := 0, finalized := 0 }

def stepReg (s : RegState) : RegOp → RegState
  | RegOp.closeCall =>
    if !s.present then s
    else if s.closedFlag || s.closing then s
    else { s with closing := true, closedFlag := true,
                  effects := s.effects + 1,
                  finalizePending := s.finalizePending + 1 }
  | RegOp.finalize =>
    if 0 < s.finalizePending then
      { s with present := false, closing := false,
               finalizePending := s.finalizePending - 1,
               finalized := s.finalized + 1 }
    else s

def runReg (s : RegState) (ops : List RegOp) : RegState :=
  ops.foldl stepReg s

/-- Inductive invariant of the close path: effects start at most once,
the finalizer runs once per start, and before the first successful
close nothing has happened. -/
def InvReg (s : RegState) : Prop :=
  s.effects ≤ 1 ∧
  s.finalized + s.finalizePending = s.effects ∧
  (s.closedFlag = false → s.present = true ∧ s.closing = false ∧ s.effects = 0) ∧
  (s.closedFlag = true → s.effects = 1)

/- ===================================================================
   Theorems.
   =================================================================== -/

/-- C4 counterexample: the mu-law round trip is not the identity: byte 64
decodes to -1948 through the source table and re-encodes to byte 63. -/
theorem C4_counterexample : ulawRoundTrip 64 ≠ 64 := by decide

/-- C4 (corrected): the decode table literal has 258 entries rather than
256, and the decode-then-encode round trip returns the original byte
exactly for the byte values 0..63; for every byte 64..255 it differs
(the table diverges from the standard mu-law table from index 63 on,
with shifted entries and sign-flipped runs). -/
theorem C4_roundtrip_characterization :
    pcm_lookup.length = 258 ∧
    ∀ b : Fin 256, (ulawRoundTrip b.val = b.val ↔ b.val < 64) :=
  ⟨by rfl, by decide⟩

/-- C2 counterexample: a 1500 ms utterance without transcript while TTS
is playing does not trigger the interrupt; the code requires a strictly
greater duration, so the claimed instance fails. -/
theorem C2_counterexample : shouldInterrupt true true (some 0) 1 [] 1501 = false := by
  decide

/-- C2 (corrected): the barge-in check fires exactly when the caller is
speaking, TTS is active (playing, or audio was sent to telephony less
than 2000 ms ago), the speech start timestamp is positive, and either
the speaking duration exceeds 500 ms with a non-empty transcript buffer
or it exceeds 1500 ms.  A 499 ms utterance never triggers it, and
without a transcript the duration must strictly exceed 1500 ms (1501 ms
triggers, 1500 ms does not). -/
theorem C2_interrupt_condition :
    (∀ sp tts last start buf now,
        shouldInterrupt sp tts last start buf now = true ↔
          (sp = true ∧ (tts = true ∨ recentlyPlayingTTS last now = true) ∧ 0 < start ∧
           ((500 < now - start ∧ buf ≠ []) ∨ 1500 < now - start))) ∧
    (∀ sp tts last start buf, shouldInterrupt sp tts last start buf (start + 499) = false) ∧
    (∀ start buf, shouldInterrupt true true none (start + 1) buf (start + 1 + 1501) = true) := by
  refine ⟨?_, ?_, ?_⟩
  · intro sp tts last start buf now
    cases sp <;> cases tts <;>
      simp [shouldInterrupt, List.isEmpty_iff, and_assoc] <;>
      cases buf <;> simp <;> omega
  · intro sp tts last start buf
    cases sp <;> cases tts <;>
      simp [shouldInterrupt, List.isEmpty_iff] <;> omega
  · intro start buf
    simp [shouldInterrupt, List.isEmpty_iff]

/-- C6: the interrupt handler removes a history entry exactly when a
commit timestamp is present, it is less than 2000 ms old, and the last
history entry is an assistant entry; it removes only that tail entry,
and in every other case the history is unchanged. -/
theorem C6_interrupt_rollback :
    (∀ (s : PipeSession) (now : Nat),
       (handleInterrupt s now).conversationHistory = s.conversationHistory ∨
       (handleInterrupt s now).conversationHistory = s.conversationHistory.dropLast) ∧
    (∀ (s : PipeSession) (now t : Nat) (lastE : HistEntry),
       s.lastAIHistorySavedAt = some t → now - t < 2000 →
       s.conversationHistory.getLast? = some lastE → lastE.is_elderly = false →
       (handleInterrupt s now).conversationHistory = s.conversationHistory.dropLast) ∧
    (∀ (s : PipeSession) (now : Nat),
       (s.lastAIHistorySavedAt = none ∨
        (∀ t, s.lastAIHistorySavedAt = some t → 2000 ≤ now - t) ∨
        (∀ lastE, s.conversationHistory.getLast? = some lastE → lastE.is_elderly = true)) →
       (handleInterrupt s now).conversationHistory = s.conversationHistory) := by
  refine ⟨?_, ?_, ?_⟩
  · intro s now
    simp only [handleInterrupt]
    cases hs : s.lastAIHistorySavedAt <;> simp [hs]
    split_ifs with h1 h2
    · cases hl : s.conversationHistory.getLast? <;> simp [hl]
      split_ifs <;> simp
    · simp
    · simp
  · intro s now t lastE hsaved hlt hlast helder
    have hne : s.conversationHistory ≠ [] := by
      intro h
      rw [h] at hlast
      simp at hlast
    simp only [handleInterrupt, hsaved]
    rw [if_pos hlt, if_pos (by simpa [List.length_pos] using hne), hlast]
    simp [helder]
  · intro s now h
    simp only [handleInterrupt]
    cases hs : s.lastAIHistorySavedAt with
    | none => simp
    | some t =>
      simp only [hs]
      by_cases hlt : now - t < 2000
      · rw [if_pos hlt]
        by_cases hlen : 0 < s.conversationHistory.length
        · rw [if_pos hlen]
          cases hl : s.conversationHistory.getLast? with
          | none => simp
          | some lastE =>
            have helder : lastE.is_elderly = true := by
              rcases h with h1 | h2 | h3
              · rw [hs] at h1; cases h1
              · exact absurd (h2 t hs) (by omega)
              · exact h3 lastE hl
            simp [helder]
        · rw [if_neg hlen]
      · rw [if_neg hlt]

/-- C6 witness: on a concrete session committed at 500 and interrupted
at 1000, the trailing assistant entry is rolled back. -/
theorem C6_witness :
    (handleInterrupt committedPipeSession 1000).conversationHistory =
      committedPipeSession.conversationHistory.dropLast :=
  C6_interrupt_rollback.2.1 committedPipeSession 1000 500
    { is_elderly := false, conversation := "a" } rfl (by decide) (by decide) rfl

theorem invReg_init : InvReg regInit := by
  simp [InvReg, regInit]

theorem invReg_step (s : RegState) (op : RegOp) (h : InvReg s) : InvReg (stepReg s op) := by
  obtain ⟨h1, h2, h3, h4⟩ := h
  cases op with
  | closeCall =>
    simp only [stepReg]
    split_ifs with g1 g2
    · exact ⟨h1, h2, h3, h4⟩
    · exact ⟨h1, h2, h3, h4⟩
    · simp only [Bool.not_eq_true] at g1
      simp only [Bool.or_eq_true, not_or, Bool.not_eq_true] at g2
      have he : s.effects = 0 := (h3 g2.1).2.2
      have hfz : s.finalized = 0 ∧ s.finalizePending = 0 := by omega
      refine ⟨?_, ?_, ?_, ?_⟩ <;> simp [he, hfz.1, hfz.2]
  | finalize =>
    simp only [stepReg]
    split_ifs with g1
    · have hcf : s.closedFlag = true := by
        by_contra hc
        simp only [Bool.not_eq_true] at hc
        have := (h3 hc).2.2
        omega
      have he := h4 hcf
      refine ⟨by simpa using h1, by simp; omega, by simp [hcf], by simp [hcf]; omega⟩
    · exact ⟨h1, h2, h3, h4⟩

theorem invReg_run (ops : List RegOp) (s : RegState) (h : InvReg s) : InvReg (runReg s ops) := by
  induction ops generalizing s with
  | nil => exact h
  | cons op rest ih => exact ih (stepReg s op) (invReg_step s op h)

theorem stepReg_flag_mono (s : RegState) (op : RegOp) (h : s.closedFlag = true) :
    (stepReg s op).closedFlag = true := by
  cases op <;> simp only [stepReg] <;> split_ifs <;> simp [h]

theorem runReg_flag_mono (ops : List RegOp) (s : RegState) (h : s.closedFlag = true) :
    (runReg s ops).closedFlag = true := by
  induction ops generalizing s with
  | nil => exact h
  | cons op rest ih => exact ih (stepReg s op) (stepReg_flag_mono s op h)

theorem stepReg_close_sets_flag (s : RegState) (h : InvReg s) :
    (stepReg s RegOp.closeCall).closedFlag = true := by
  obtain ⟨h1, h2, h3, h4⟩ := h
  simp only [stepReg]
  split_ifs with g1 g2
  · have hp : s.present = false := by simpa using g1
    by_contra hc
    simp only [Bool.not_eq_true] at hc
    rw [(h3 hc).1] at hp
    cases hp
  · rcases Bool.or_eq_true _ _ |>.mp g2 with hcl | hcg
    · exact hcl
    · by_contra hc
      simp only [Bool.not_eq_true] at hc
      exact absurd (h3 hc).2.1 (by simp [hcg])
  · simp

theorem runReg_mem_close_flag (xs : List RegOp) (s : RegState) (h : InvReg s)
    (hmem : RegOp.closeCall ∈ xs) : (runReg s xs).closedFlag = true := by
  induction xs generalizing s with
  | nil => cases hmem
  | cons op rest ih =>
    rcases List.mem_cons.mp hmem with heq | hrest
    · subst heq
      exact runReg_flag_mono rest _ (stepReg_close_sets_flag s h)
    · exact ih (stepReg s op) (invReg_step s op h) hrest

theorem runReg_append (s : RegState) (xs ys : List RegOp) :
    runReg s (xs ++ ys) = runReg (runReg s xs) ys :=
  List.foldl_append stepReg s xs ys

theorem runReg_cons (s : RegState) (op : RegOp) (ops : List RegOp) :
    runReg s (op :: ops) = runReg (stepReg s op) ops := rfl

theorem stepReg_close_noop (s : RegState) (h : s.closedFlag = true) :
    stepReg s RegOp.closeCall = s := by
  simp only [stepReg]
  split_ifs with g1 g2
  · rfl
  · rfl
  · exact absurd (by simp [h]) g2

/-- C8: closeAllConnections is idempotent: over any interleaving of
close calls and finalizer continuations, the end-of-call side effects
start at most once and the finalizer runs at most once, and inserting a
second close call anywhere after a first one leaves the resulting state
unchanged. -/
theorem C8_close_idempotent :
    (∀ ops, (runReg regInit ops).effects ≤ 1 ∧ (runReg regInit ops).finalized ≤ 1) ∧
    (∀ xs ys, RegOp.closeCall ∈ xs →
      runReg regInit (xs ++ RegOp.closeCall :: ys) = runReg regInit (xs ++ ys)) := by
  constructor
  · intro ops
    obtain ⟨h1, h2, _, _⟩ := invReg_run ops regInit invReg_init
    exact ⟨h1, by omega⟩
  · intro xs ys hmem
    have hflag := runReg_mem_close_flag xs regInit invReg_init hmem
    rw [runReg_append, runReg_append, runReg_cons, stepReg_close_noop _ hflag]

/-- C8 witness: a concrete double close around a finalize equals the
single close. -/
theorem C8_witness :
    runReg regInit ([RegOp.closeCall] ++ RegOp.closeCall :: [RegOp.finalize]) =
      runReg regInit ([RegOp.closeCall] ++ [RegOp.finalize]) :=
  C8_close_idempotent.2 [RegOp.closeCall] [RegOp.finalize] (by decide)

theorem streamGo_flag (k : Nat) (chunks : List String) :
    ∀ (i : Nat) (isFirst : Bool) (full : String),
      streamGo (some k) none chunks i isFirst full =
        streamGo none none (chunks.take (k - i)) i isFirst full := by
  induction chunks with
  | nil =>
    intro i isFirst full
    simp [streamGo, throwHit]
  | cons c rest ih =>
    intro i isFirst full
    by_cases hk : k ≤ i
    · have h0 : k - i = 0 := Nat.sub_eq_zero_of_le hk
      simp [streamGo, throwHit, flagHit, hk, h0]
    · have htk : k - i = (k - (i + 1)) + 1 := by omega
      rw [htk, streamGo.eq_def, streamGo.eq_def]
      simp only [throwHit, flagHit, List.take_succ_cons]
      simp only [hk, decide_eq_true_eq, if_false, if_true, Bool.false_eq_true, ite_false, ite_true]
      by_cases hc : c = ""
      · simp only [hc, if_pos rfl]
        exact ih (i + 1) isFirst full
      · simp only [if_neg hc]
        rw [ih (i + 1) false (full ++ c)]

theorem streamGo_throw (j : Nat) (ab : Bool) (chunks : List String) :
    ∀ (i : Nat) (isFirst : Bool) (full : String), i ≤ j →
      streamGo none (some (j, ab)) chunks i isFirst full =
        (if j - i ≤ chunks.length
         then tokenEventsGo (chunks.take (j - i)) isFirst ++ [LLMEvent.error ab]
         else streamGo none none chunks i isFirst full) := by
  induction chunks with
  | nil =>
    intro i isFirst full hij
    by_cases hj : j = i
    · simp [streamGo, throwHit, throwKind, hj, tokenEventsGo]
    · have hcond : ¬ (j - i ≤ ([] : List String).length) := by simp; omega
      rw [if_neg hcond]
      simp [streamGo, throwHit, flagHit, hj]
  | cons c rest ih =>
    intro i isFirst full hij
    by_cases hj : j = i
    · simp [streamGo, throwHit, throwKind, hj, tokenEventsGo]
    · have hij2 : i + 1 ≤ j := by omega
      have htk : j - i = (j - (i + 1)) + 1 := by omega
      rw [streamGo.eq_def]
      simp only [throwHit, flagHit, hj, decide_eq_true_eq, if_false, Bool.false_eq_true,
        ite_false, ite_true]
      by_cases hlen : j - (i + 1) ≤ rest.length
      · have hcond : j - i ≤ (c :: rest).length := by simp; omega
        rw [if_pos hcond]
        have htake : (c :: rest).take (j - i) = c :: rest.take (j - (i + 1)) := by
          rw [htk, List.take_succ_cons]
        rw [htake]
        by_cases hc : c = ""
        · simp only [hc, eq_self_iff_true, if_true, ite_true, tokenEventsGo]
          rw [ih (i + 1) isFirst full hij2, if_pos hlen]
        · simp only [if_neg hc, tokenEventsGo]
          rw [ih (i + 1) false (full ++ c) hij2, if_pos hlen]
          simp [List.append_assoc]
      · have hcond : ¬ (j - i ≤ (c :: rest).length) := by simp; omega
        rw [if_neg hcond]
        conv_rhs => rw [streamGo.eq_def]
        simp only [throwHit, flagHit, if_false, Bool.false_eq_true, ite_false]
        by_cases hc : c = ""
        · simp only [hc, eq_self_iff_true, if_true, ite_true]
          rw [ih (i + 1) isFirst full hij2, if_neg hlen]
        · simp only [if_neg hc]
          rw [ih (i + 1) false (full ++ c) hij2, if_neg hlen]

theorem drainAux_frames (fuel : Nat) :
    ∀ (telOpen : Bool) (buf : List Nat) (m : TwilioMsg),
      m ∈ (drainAux fuel telOpen buf).1 → ∃ p, m = TwilioMsg.media p ∧ p.length = 160 := by
  induction fuel with
  | zero => intro telOpen buf m hm; simp [drainAux] at hm
  | succ fuel ih =>
    intro telOpen buf m hm
    simp only [drainAux] at hm
    by_cases hlen : 160 ≤ buf.length
    · rw [if_pos hlen] at hm
      simp only [List.mem_append] at hm
      rcases hm with hm | hm
      · cases telOpen with
        | false => simp at hm
        | true =>
          simp at hm
          exact ⟨buf.take 160, hm, by simp [List.length_take]; omega⟩
      · exact ih telOpen (buf.drop 160) m hm
    · rw [if_neg hlen] at hm
      simp at hm

theorem drainAux_rest (fuel : Nat) :
    ∀ (telOpen : Bool) (buf : List Nat), buf.length ≤ fuel →
      (drainAux fuel telOpen buf).2.length < 160 := by
  induction fuel with
  | zero =>
    intro telOpen buf h
    have hb : buf.length < 160 := by omega
    simpa [drainAux] using hb
  | succ fuel ih =>
    intro telOpen buf h
    simp only [drainAux]
    by_cases hlen : 160 ≤ buf.length
    · rw [if_pos hlen]
      exact ih telOpen (buf.drop 160) (by simp; omega)
    · rw [if_neg hlen]
      have hb : buf.length < 160 := by omega
      simpa using hb

theorem drain_frames (telOpen : Bool) (buf : List Nat) (m : TwilioMsg)
    (hm : m ∈ (drain telOpen buf).1) : ∃ p, m = TwilioMsg.media p ∧ p.length = 160 :=
  drainAux_frames buf.length telOpen buf m hm

theorem drain_rest (telOpen : Bool) (buf : List Nat) : (drain telOpen buf).2.length < 160 :=
  drainAux_rest buf.length telOpen buf (Nat.le_refl _)

/-- C5: every telephony media frame emitted by handleAudioChunk is an
exact 160-byte slice, and flushRemainingBuffer emits either nothing or
a single 160-byte frame consisting of the buffered tail padded with
0xff mu-law silence. -/
theorem C5_frame_length :
    (∀ (s : ELSession) (d : ELData) (m : TwilioMsg), m ∈ (handleAudioChunk s d).2 →
       ∃ p, m = TwilioMsg.media p ∧ p.length = 160) ∧
    (∀ s : ELSession, (flushRemainingBuffer s).2 = [] ∨
       ∃ p, (flushRemainingBuffer s).2 = [TwilioMsg.media p] ∧ p.length = 160 ∧
            p = s.buffer.take 160 ++ List.replicate (160 - min s.buffer.length 160) 0xff) := by
  constructor
  · intro s d m hm
    simp only [handleAudioChunk] at hm
    by_cases hmut : s.isMuted
    · simp [hmut] at hm
    · rw [if_neg hmut] at hm
      cases d with
      | malformed => simp at hm
      | errMsg => simp at hm
      | noAudio => simp at hm
      | audio bytes => exact drain_frames _ _ m hm
  · intro s
    simp only [flushRemainingBuffer]
    by_cases hguard : s.buffer.length = 0 || s.isMuted
    · rw [if_pos hguard]; left; rfl
    · rw [if_neg hguard]
      by_cases htw : s.twilioOpen
      · right
        refine ⟨_, by simp [htw], ?_, rfl⟩
        simp [List.length_take, List.length_replicate]
        omega
      · left; simp [htw]

theorem invEL_init (twilioOpen : Bool) : InvEL (elInit twilioOpen) := by
  simp [InvEL, elInit]

theorem invEL_flushRemaining (s : ELSession) (h : InvEL s) :
    InvEL (flushRemainingBuffer s).1 := by
  obtain ⟨h1, h2⟩ := h
  simp only [flushRemainingBuffer]
  split_ifs with hg
  · exact ⟨h1, h2⟩
  all_goals exact ⟨by simp, by simp⟩

theorem invEL_step (s : ELSession) (op : ELOp) (h : InvEL s) : InvEL (stepEL s op) := by
  obtain ⟨h1, h2⟩ := h
  cases op with
  | prepare cb => exact ⟨by simp [stepEL, stepELOut, prepareForNewResponse], by simp [stepEL, stepELOut, prepareForNewResponse]⟩
  | interrupt => exact ⟨by simp [stepEL, stepELOut, interruptStream], by simp [stepEL, stepELOut, interruptStream]⟩
  | clearStream => exact ⟨by simp [stepEL, stepELOut, clearTwilioStream], by simp [stepEL, stepELOut, clearTwilioStream]⟩
  | timer =>
    simp only [stepEL, stepELOut, timerFire]
    split_ifs with ha
    · exact invEL_flushRemaining _ ⟨h1, h2⟩
    · exact ⟨h1, h2⟩
  | stop => exact ⟨by simpa [stepEL, stepELOut, stopSession] using h1, by simpa [stepEL, stepELOut, stopSession] using h2⟩
  | flushReq =>
    simp only [stepEL, stepELOut, flushOp]
    split_ifs <;> exact ⟨by simpa using h1, by simpa using h2⟩
  | tokenReq t =>
    simp only [stepEL, stepELOut, sendTokenOp]
    split_ifs <;> exact ⟨by simpa using h1, by simpa using h2⟩
  | chunk d =>
    simp only [stepEL, stepELOut, handleAudioChunk]
    by_cases hmut : s.isMuted
    · simp only [if_pos hmut]
      exact ⟨h1, h2⟩
    · rw [if_neg hmut]
      cases d with
      | malformed => exact ⟨h1, h2⟩
      | errMsg => exact ⟨h1, h2⟩
      | noAudio => exact ⟨h1, h2⟩
      | audio bytes =>
        constructor
        · simpa using drain_rest _ _
        · intro hmm
          simp at hmm
          simp [hmut] at hmm
  | wsClosed => exact ⟨by simpa using h1, by simpa using h2⟩
  | twilioClosed => exact ⟨by simpa using h1, by simpa using h2⟩

theorem invEL_run (ops : List ELOp) (s : ELSession) (h : InvEL s) : InvEL (runEL s ops) := by
  induction ops generalizing s with
  | nil => exact h
  | cons op rest ih => exact ih (stepEL s op) (invEL_step s op h)

/-- C10: in every reachable session state the accumulation buffer holds
fewer than 160 bytes, and prepareForNewResponse, interruptStream,
clearTwilioStream and flushRemainingBuffer each leave it empty. -/
theorem C10_buffer_discipline :
    ∀ (twilioOpen : Bool) (ops : List ELOp),
      ((runEL (elInit twilioOpen) ops).buffer.length < 160) ∧
      (∀ cb, (stepEL (runEL (elInit twilioOpen) ops) (ELOp.prepare cb)).buffer = []) ∧
      ((stepEL (runEL (elInit twilioOpen) ops) ELOp.interrupt).buffer = []) ∧
      ((stepEL (runEL (elInit twilioOpen) ops) ELOp.clearStream).buffer = []) ∧
      ((flushRemainingBuffer (runEL (elInit twilioOpen) ops)).1.buffer = []) := by
  intro twilioOpen ops
  obtain ⟨h1, h2⟩ := invEL_run ops (elInit twilioOpen) (invEL_init twilioOpen)
  refine ⟨h1, ?_, ?_, ?_, ?_⟩
  · intro cb; simp [stepEL, stepELOut, prepareForNewResponse]
  · simp [stepEL, stepELOut, interruptStream]
  · simp [stepEL, stepELOut, clearTwilioStream]
  · simp only [flushRemainingBuffer]
    split_ifs with hg
    · rcases Bool.or_eq_true _ _ |>.mp hg with hz | hm
      · simpa using List.length_eq_zero.mp (by simpa using hz)
      · exact h2 hm
    all_goals rfl

/-- C7 counterexample: interruptStream leaves the upstream ElevenLabs
connection open and sends it a flush message; it never closes it,
contradicting the claim that the upstream connection is closed. -/
theorem C7_counterexample :
    (interruptStream (elInit true)).1.wsOpen = true ∧
    ElevenMsg.closeConn ∉ (interruptStream (elInit true)).2 := by
  constructor
  · rfl
  · decide

/-- C7 (corrected): interruptStream sets the muted flag, drops the
buffer, clears the callbacks and the flush timer, keeps the upstream
connection in its previous state while sending it a flush when open,
and from then on no media frame reaches the telephony sink and the
session stays muted under any operations that do not include
prepareForNewResponse. -/
theorem C7_interrupt_semantics :
    (∀ s : ELSession,
       (interruptStream s).1.isMuted = true ∧
       (interruptStream s).1.buffer = [] ∧
       (interruptStream s).1.callbacksRegistered = false ∧
       (interruptStream s).1.isFlushing = false ∧
       (interruptStream s).1.timerArmed = false ∧
       (interruptStream s).1.wsOpen = s.wsOpen ∧
       (interruptStream s).2 = (if s.wsOpen then [ElevenMsg.flushMsg] else [])) ∧
    (∀ (s : ELSession) (ops : List ELOp),
       s.isMuted = true →
       (∀ cb, ELOp.prepare cb ∉ ops) →
       ((runELOut s ops).2.all (fun m => !isMediaMsg m) = true ∧
        (runELOut s ops).1.isMuted = true)) := by
  constructor
  · intro s
    refine ⟨rfl, rfl, rfl, rfl, rfl, rfl, rfl⟩
  · intro s ops
    induction ops generalizing s with
    | nil => intro hmut _; exact ⟨rfl, hmut⟩
    | cons op rest ih =>
      intro hmut hnp
      have hnp2 : ∀ cb, ELOp.prepare cb ∉ rest := by
        intro cb hc
        exact hnp cb (List.mem_cons_of_mem _ hc)
      have hstep : (stepELOut s op).1.isMuted = true ∧
          (stepELOut s op).2.all (fun m => !isMediaMsg m) = true := by
        cases op with
        | prepare cb => exact absurd (List.mem_cons_self _ _) (hnp cb)
        | interrupt => simp [stepELOut, interruptStream]
        | clearStream => simp [stepELOut, clearTwilioStream, hmut, isMediaMsg]
        | timer =>
          simp only [stepELOut, timerFire]
          split_ifs with ha
          · simp only [flushRemainingBuffer, hmut]
            simp
          · simp [hmut]
        | stop => simp [stepELOut, stopSession, hmut]
        | flushReq =>
          simp only [stepELOut, flushOp]
          split_ifs <;> simp [hmut]
        | tokenReq t =>
          simp only [stepELOut, sendTokenOp]
          split_ifs <;> simp [hmut]
        | chunk d => simp [stepELOut, handleAudioChunk, hmut]
        | wsClosed => simp [stepELOut, hmut]
        | twilioClosed => simp [stepELOut, hmut]
      have hrest := ih (stepELOut s op).1 hstep.1 hnp2
      constructor
      · show ((stepELOut s op).2 ++ (runELOut (stepELOut s op).1 rest).2).all _ = true
        rw [List.all_append]
        exact Bool.and_eq_true _ _ |>.mpr ⟨hstep.2, hrest.1⟩
      · exact hrest.2

/-- C3 counterexample: when the abort signal is observed at the loop
head after the first chunk (mid-stream, chunks remain), the stream run
ends in onComplete with the partial text and reports no error at all,
contradicting the claim that an aborted-tagged error is reported via
onError. -/
theorem C3_counterexample :
    streamResponse [ "a", "b" ] (some 1) none =
      [LLMEvent.firstToken, LLMEvent.token ("a"), LLMEvent.complete ("a")] ∧
    LLMEvent.error true ∉ streamResponse [ "a", "b" ] (some 1) none := by
  constructor
  · decide
  · decide

/-- C3 (corrected): firing the abort mid-stream terminates the stream
without emitting further tokens, but the outcome depends on how the
abort surfaces: if the signal is observed at the loop head, the run
equals the run on the truncated chunk list and ends in onComplete with
the partial text; if the stream itself throws, the events are the
tokens before the throw followed by one onError carrying the error
kind (an AbortError when the throw is the abort). -/
theorem C3_abort_semantics :
    (∀ (chunks : List String) (k : Nat),
        streamResponse chunks (some k) none = streamResponse (chunks.take k) none none) ∧
    (∀ (chunks : List String) (j : Nat) (ab : Bool),
        streamResponse chunks none (some (j, ab)) =
          if j ≤ chunks.length
          then tokenEvents (chunks.take j) ++ [LLMEvent.error ab]
          else streamResponse chunks none none) := by
  constructor
  · intro chunks k
    have h := streamGo_flag k chunks 0 true ""
    simpa [streamResponse] using h
  · intro chunks j ab
    have h := streamGo_throw j ab chunks 0 true "" (Nat.zero_le j)
    simpa [streamResponse, tokenEvents] using h

/-- C7 witness: after interrupting a fresh session, an incoming audio
chunk and a timer fire emit no media and leave the session muted. -/
theorem C7_witness :
    ((runELOut (interruptStream (elInit true)).1
        [ELOp.chunk (ELData.audio (List.replicate 160 1)), ELOp.timer]).2.all
          (fun m => !isMediaMsg m) = true ∧
     (runELOut (interruptStream (elInit true)).1
        [ELOp.chunk (ELData.audio (List.replicate 160 1)), ELOp.timer]).1.isMuted = true) :=
  C7_interrupt_semantics.2 (interruptStream (elInit true)).1
    [ELOp.chunk (ELData.audio (List.replicate 160 1)), ELOp.timer] (by rfl) (by decide)


/-- C9 counterexample: the ElevenLabs streamer emits 10 media frames
for a 1600-byte audio chunk and no mark message at all, so its 10th
emitted frame is not followed by a mark. -/
theorem C9_counterexample :
    ((handleAudioChunk (elInit true) (ELData.audio (List.replicate 1600 10))).2.countP
        (fun m => isMediaMsg m) = 10) ∧
    ((handleAudioChunk (elInit true) (ELData.audio (List.replicate 1600 10))).2.all
        (fun m => !isMarkMsg m) = true) := by
  constructor
  · decide
  · decide

theorem streamerGo_mark (wsOpenAt : Nat → Bool) (chunks : List (List Nat)) :
    ∀ (i sent j : Nat) (p : List Nat),
      (streamerGo wsOpenAt chunks i sent).get? j = some (TwilioMsg.media p) →
      (sent + mediaCount ((streamerGo wsOpenAt chunks i sent).take (j + 1))) % 10 = 0 →
      (streamerGo wsOpenAt chunks i sent).get? (j + 1) =
        some (TwilioMsg.mark ("tts_chunk_" ++
          toString (sent + mediaCount ((streamerGo wsOpenAt chunks i sent).take (j + 1))))) := by
  induction chunks with
  | nil =>
    intro i sent j p hget _
    simp [streamerGo] at hget
  | cons c rest ih =>
    intro i sent j p hget hcnt
    by_cases hw : wsOpenAt i
    · by_cases h10 : (sent + 1) % 10 = 0
      · have hout : streamerGo wsOpenAt (c :: rest) i sent =
            TwilioMsg.media c :: TwilioMsg.mark ("tts_chunk_" ++ toString (sent + 1)) ::
              streamerGo wsOpenAt rest (i + 1) (sent + 1) := by
          simp [streamerGo, hw, h10]
        rw [hout] at hget hcnt ⊢
        match j with
        | 0 =>
          have hc1 : mediaCount ((TwilioMsg.media c :: TwilioMsg.mark ("tts_chunk_" ++ toString (sent + 1)) ::
              streamerGo wsOpenAt rest (i + 1) (sent + 1)).take 1) = 1 := by
            simp [mediaCount, isMediaMsg]
          rw [hc1]
          rfl
        | 1 => simp at hget
        | Nat.succ (Nat.succ k) =>
          have hc2 : mediaCount ((TwilioMsg.media c :: TwilioMsg.mark ("tts_chunk_" ++ toString (sent + 1)) ::
              streamerGo wsOpenAt rest (i + 1) (sent + 1)).take (k + 2 + 1)) =
              1 + mediaCount ((streamerGo wsOpenAt rest (i + 1) (sent + 1)).take (k + 1)) := by
            simp [mediaCount, isMediaMsg, List.take_succ_cons, List.countP_cons]
            omega
          rw [hc2] at hcnt ⊢
          have hget2 : (streamerGo wsOpenAt rest (i + 1) (sent + 1)).get? k = some (TwilioMsg.media p) := by
            simpa using hget
          have hcnt2 : ((sent + 1) + mediaCount ((streamerGo wsOpenAt rest (i + 1) (sent + 1)).take (k + 1))) % 10 = 0 := by
            omega
          have hres := ih (i + 1) (sent + 1) k p hget2 hcnt2
          have hname : sent + (1 + mediaCount ((streamerGo wsOpenAt rest (i + 1) (sent + 1)).take (k + 1))) =
              (sent + 1) + mediaCount ((streamerGo wsOpenAt rest (i + 1) (sent + 1)).take (k + 1)) := by
            omega
          rw [hname]
          simpa using hres
      · have hout : streamerGo wsOpenAt (c :: rest) i sent =
            TwilioMsg.media c :: streamerGo wsOpenAt rest (i + 1) (sent + 1) := by
          simp [streamerGo, hw, h10]
        rw [hout] at hget hcnt ⊢
        match j with
        | 0 =>
          have hc1 : mediaCount ((TwilioMsg.media c ::
              streamerGo wsOpenAt rest (i + 1) (sent + 1)).take 1) = 1 := by
            simp [mediaCount, isMediaMsg]
          rw [hc1] at hcnt
          omega
        | Nat.succ k =>
          have hc2 : mediaCount ((TwilioMsg.media c ::
              streamerGo wsOpenAt rest (i + 1) (sent + 1)).take (k + 1 + 1)) =
              1 + mediaCount ((streamerGo wsOpenAt rest (i + 1) (sent + 1)).take (k + 1)) := by
            simp [mediaCount, isMediaMsg, List.take_succ_cons, List.countP_cons]
            omega
          rw [hc2] at hcnt ⊢
          have hget2 : (streamerGo wsOpenAt rest (i + 1) (sent + 1)).get? k = some (TwilioMsg.media p) := by
            simpa using hget
          have hcnt2 : ((sent + 1) + mediaCount ((streamerGo wsOpenAt rest (i + 1) (sent + 1)).take (k + 1))) % 10 = 0 := by
            omega
          have hres := ih (i + 1) (sent + 1) k p hget2 hcnt2
          have hname : sent + (1 + mediaCount ((streamerGo wsOpenAt rest (i + 1) (sent + 1)).take (k + 1))) =
              (sent + 1) + mediaCount ((streamerGo wsOpenAt rest (i + 1) (sent + 1)).take (k + 1)) := by
            omega
          rw [hname]
          simpa using hres
    · simp [streamerGo, hw] at hget

/-- C9 (corrected): in the blocking TTSStreamer send loop, every media
frame that brings the running frame count to a multiple of 10 is
immediately followed by a mark message named after that count; the
ElevenLabs streaming path emits no marks (see the counterexample). -/
theorem C9_mark_amended :
    ∀ (wsOpenAt : Nat → Bool) (ulawAudio : List Nat) (j : Nat) (p : List Nat),
      (streamAudioToTwilio wsOpenAt ulawAudio).get? j = some (TwilioMsg.media p) →
      mediaCount ((streamAudioToTwilio wsOpenAt ulawAudio).take (j + 1)) % 10 = 0 →
      (streamAudioToTwilio wsOpenAt ulawAudio).get? (j + 1) =
        some (TwilioMsg.mark ("tts_chunk_" ++
          toString (mediaCount ((streamAudioToTwilio wsOpenAt ulawAudio).take (j + 1))))) := by
  intro wsOpenAt ulawAudio j p hget hcnt
  have h := streamerGo_mark wsOpenAt (splitIntoChunks ulawAudio) 0 0 j p hget (by simpa using hcnt)
  simpa using h

/-- C9 witness: streaming 1600 bytes over an always-open socket puts a
mark right after the 10th frame. -/
theorem C9_witness :
    (streamAudioToTwilio (fun _ => true) (List.replicate 1600 5)).get? 10 =
      some (TwilioMsg.mark ("tts_chunk_" ++
        toString (mediaCount ((streamAudioToTwilio (fun _ => true)
          (List.replicate 1600 5)).take 10)))) :=
  C9_mark_amended (fun _ => true) (List.replicate 1600 5) 9 (List.replicate 160 5)
    (by decide) (by decide)

theorem runTurn_append (s : PipeSession) (xs ys : List TurnEvent) :
    runTurn s (xs ++ ys) =
      ((runTurn (runTurn s xs).1 ys).1,
       (runTurn s xs).2 ++ (runTurn (runTurn s xs).1 ys).2) := by
  induction xs generalizing s with
  | nil => simp [runTurn]
  | cons e rest ih =>
    simp only [List.cons_append, runTurn, List.append_eq]
    rw [ih (stepTurn s e).1]
    simp [List.append_assoc]

theorem runTurn_fst_append (s : PipeSession) (xs ys : List TurnEvent) :
    (runTurn s (xs ++ ys)).1 = (runTurn (runTurn s xs).1 ys).1 := by
  rw [runTurn_append]

theorem runTurn_cons (s : PipeSession) (e : TurnEvent) (es : List TurnEvent) :
    runTurn s (e :: es) =
      ((runTurn (stepTurn s e).1 es).1, (stepTurn s e).2 ++ (runTurn (stepTurn s e).1 es).2) :=
  rfl

theorem runTurn_tokens (toks : List TurnEvent) :
    ∀ s : PipeSession, toks.all isTokenEvent = true → runTurn s toks = (s, []) := by
  induction toks with
  | nil => intro s _; rfl
  | cons e rest ih =>
    intro s hall
    simp only [List.all_cons, Bool.and_eq_true] at hall
    cases e with
    | llmToken t =>
      rw [runTurn_cons]
      rw [ih _ hall.2]
      rfl
    | llmComplete full => simp [isTokenEvent] at hall
    | streamComplete now => simp [isTokenEvent] at hall
    | interrupt now => simp [isTokenEvent] at hall

theorem handleInterrupt_flags (s : PipeSession) (now : Nat) :
    (handleInterrupt s now).wasInterrupted = true ∧
    (handleInterrupt s now).ttsCallbacksRegistered = false ∧
    (handleInterrupt s now).pendingAIResponse = none ∧
    (handleInterrupt s now).lastAIHistorySavedAt = none := by
  simp only [handleInterrupt]
  cases s.lastAIHistorySavedAt <;> simp
  split_ifs <;> (try rfl) <;>
    (cases s.conversationHistory.getLast? <;> simp <;> split_ifs <;> simp)

theorem runTurn_interrupted (es : List TurnEvent) :
    ∀ s : PipeSession, s.wasInterrupted = true →
      (runTurn s es).2 = [] ∧ (runTurn s es).1.wasInterrupted = true := by
  induction es with
  | nil => intro s h; exact ⟨rfl, h⟩
  | cons e rest ih =>
    intro s h
    have hstep : (stepTurn s e).2 = [] ∧ (stepTurn s e).1.wasInterrupted = true := by
      cases e with
      | llmToken t => exact ⟨rfl, h⟩
      | llmComplete full => exact ⟨rfl, by simpa using h⟩
      | streamComplete now =>
        simp only [stepTurn]
        by_cases hcb : s.ttsCallbacksRegistered
        · rw [if_pos hcb]
          cases hp : s.pendingAIResponse with
          | none => exact ⟨rfl, by simpa using h⟩
          | some p => constructor <;> simp [h]
        · rw [if_neg hcb]; exact ⟨rfl, h⟩
      | interrupt t => exact ⟨rfl, (handleInterrupt_flags s t).1⟩
    have hrest := ih (stepTurn s e).1 hstep.2
    rw [runTurn_cons]
    exact ⟨by simp [hstep.1, hrest.1], hrest.2⟩

theorem runTurn_benign (es : List TurnEvent) :
    ∀ s : PipeSession, es.all isBenignTailEvent = true →
      strTruthy s.pendingAIResponse = false → (runTurn s es).2 = [] := by
  induction es with
  | nil => intro s _ _; rfl
  | cons e rest ih =>
    intro s hall hp
    simp only [List.all_cons, Bool.and_eq_true] at hall
    have hstep : (stepTurn s e).2 = [] ∧ strTruthy (stepTurn s e).1.pendingAIResponse = false := by
      cases e with
      | llmToken t => exact ⟨rfl, hp⟩
      | llmComplete full => simp [isBenignTailEvent] at hall
      | interrupt t => simp [isBenignTailEvent] at hall
      | streamComplete now =>
        simp only [stepTurn]
        by_cases hcb : s.ttsCallbacksRegistered
        · rw [if_pos hcb]
          cases hpp : s.pendingAIResponse with
          | none => exact ⟨rfl, by simp [strTruthy]⟩
          | some p =>
            have hpe : p = "" := by
              rw [hpp] at hp
              simpa [strTruthy] using hp
            constructor <;> simp [hpe, strTruthy]
        · rw [if_neg hcb]; exact ⟨rfl, hp⟩
    rw [runTurn_cons]
    simp [hstep.1, ih (stepTurn s e).1 hall.2 hstep.2]

theorem runTurn_fst_tokens (toks : List TurnEvent) (s : PipeSession)
    (h : toks.all isTokenEvent = true) : (runTurn s toks).1 = s := by
  rw [runTurn_tokens toks s h]

theorem runTurn_fst_cons (s : PipeSession) (e : TurnEvent) (es : List TurnEvent) :
    (runTurn s (e :: es)).1 = (runTurn (stepTurn s e).1 es).1 := rfl

/-- C1: per-turn commit discipline.  First, events after an interrupt
append nothing: the appended-text log of a turn trace equals the log up
to and including the first interrupt.  Second, in the commit-then-barge-in
race, when the interrupt follows a stream completion by less than
2000 ms the history at end of turn equals the history at turn start.
Third, an uninterrupted turn whose LLM completed with a non-empty text
and whose TTS stream completed appends exactly one assistant entry with
that text, even if further stream completions fire. -/
theorem C1_turn_commit :
    (∀ (s : PipeSession) (es1 es2 : List TurnEvent) (t : Nat),
       (runTurn (turnStart s) (es1 ++ TurnEvent.interrupt t :: es2)).2 =
         (runTurn (turnStart s) (es1 ++ [TurnEvent.interrupt t])).2) ∧
    (∀ (s : PipeSession) (toks1 toks2 toks3 : List TurnEvent) (full : String) (tc ti : Nat),
       toks1.all isTokenEvent = true → toks2.all isTokenEvent = true →
       toks3.all isTokenEvent = true → ¬ full = "" → ti - tc < 2000 →
       (runTurn (turnStart s)
         (toks1 ++ TurnEvent.llmComplete full ::
           (toks2 ++ TurnEvent.streamComplete tc ::
             (toks3 ++ [TurnEvent.interrupt ti])))).1.conversationHistory =
         s.conversationHistory) ∧
    (∀ (s : PipeSession) (toks1 toks2 rest : List TurnEvent) (full : String) (tc : Nat),
       toks1.all isTokenEvent = true → toks2.all isTokenEvent = true →
       rest.all isBenignTailEvent = true → ¬ full = "" →
       (runTurn (turnStart s)
         (toks1 ++ TurnEvent.llmComplete full ::
           (toks2 ++ TurnEvent.streamComplete tc :: rest))).2 = [full]) := by
  refine ⟨?_, ?_, ?_⟩
  · intro s es1 es2 t
    rw [runTurn_append, runTurn_append]
    simp only []
    congr 1
    have hflag : ((stepTurn (runTurn (turnStart s) es1).1 (TurnEvent.interrupt t)).1).wasInterrupted = true :=
      (handleInterrupt_flags (runTurn (turnStart s) es1).1 t).1
    rw [runTurn_cons, runTurn_cons]
    simp only []
    rw [(runTurn_interrupted es2 _ hflag).1]
    rfl
  · intro s toks1 toks2 toks3 full tc ti h1 h2 h3 hfull hlt
    rw [runTurn_fst_append, runTurn_fst_tokens toks1 _ h1, runTurn_fst_cons,
        runTurn_fst_append, runTurn_fst_tokens toks2 _ h2, runTurn_fst_cons,
        runTurn_fst_append, runTurn_fst_tokens toks3 _ h3, runTurn_fst_cons]
    simp [stepTurn, turnStart, handleInterrupt, runTurn, hfull, hlt,
      List.getLast?_concat, List.dropLast_concat]
  · intro s toks1 toks2 rest full tc h1 h2 h3 hfull
    rw [runTurn_append, runTurn_tokens toks1 _ h1]
    simp only []
    rw [runTurn_cons]
    simp only []
    rw [runTurn_append]
    rw [runTurn_tokens toks2 _ h2]
    simp only []
    rw [runTurn_cons]
    simp only []
    have hb : (runTurn (stepTurn (stepTurn (turnStart s) (TurnEvent.llmComplete full)).1
        (TurnEvent.streamComplete tc)).1 rest).2 = [] := by
      apply runTurn_benign rest _ h3
      simp [stepTurn, turnStart, strTruthy, hfull]
    rw [hb]
    simp [stepTurn, turnStart, hfull]

/-- C1 witness: a concrete clean turn with a duplicate stream
completion appends exactly one assistant text. -/
theorem C1_witness :
    (runTurn (turnStart emptyPipeSession)
      ([TurnEvent.llmToken ("x")] ++ TurnEvent.llmComplete ("hi") ::
        ([] ++ TurnEvent.streamComplete 50 :: [TurnEvent.streamComplete 60]))).2 = [ "hi" ] :=
  C1_turn_commit.2.2 emptyPipeSession [TurnEvent.llmToken ("x")] []
    [TurnEvent.streamComplete 60] ("hi") 50 (by decide) (by decide) (by decide) (by decide)

/-- C5 witness: a 160-byte audio chunk yields a frame of length 160. -/
theorem C5_witness :
    ∃ p, TwilioMsg.media (List.replicate 160 7) = TwilioMsg.media p ∧ p.length = 160 :=
  C5_frame_length.1 (elInit true) (ELData.audio (List.replicate 160 7))
    (TwilioMsg.media (List.replicate 160 7)) (by decide)

end MedicareCall
